import Mathlib

/-!
Verification of the libp2p-identify protocol core (`src/libp2p-identify/src/lib.rs`).

The module under `src/` drives the `/ipfs/id/1.0.0` exchange: the listener
serializes an announcement (protobuf `Identify` message, addresses rendered as
multiaddr text) and writes it as one varint-length-prefixed frame; the dialer
reads one frame and decodes it into an `IdentifyInfo`.  The protobuf runtime,
the multiaddr codec and the varint frame codec live outside `src/`, so those
layers are modelled from the specification (spec §4.1, §4.2, §4.3); everything
else is translated from the Rust source.

Bytes are modelled as natural numbers, byte strings as `List Nat`.
-/

/-- Modelled from the spec: the varint frame codec (§4.2, the `varint` crate is
not under `src/`).  Base-128 little-endian encoding with continuation bit;
`fuel`-structured so that the definition computes (fuel `n` always suffices). -/
def varintEncodeAux : Nat → Nat → List Nat
  | 0, n => [n % 128]
  | fuel + 1, n => if n < 128 then [n] else (n % 128 + 128) :: varintEncodeAux fuel (n / 128)

/-- Modelled from the spec: varint encoding of an unsigned integer (§4.2). -/
def varintEncode (n : Nat) : List Nat :=
  varintEncodeAux n n

/-- Modelled from the spec: varint decoding (§4.2); returns the decoded value
and the remaining bytes, or `none` when the input ends mid-varint. -/
def varintDecode : List Nat → Option (Nat × List Nat)
  | [] => none
  | b :: rest =>
    if b < 128 then some (b, rest)
    else (varintDecode rest).map fun vr => ((b - 128) + 128 * vr.1, vr.2)

/-- A UTF-8 continuation byte (`10xxxxxx`). -/
def isCont (b : Nat) : Bool :=
  128 ≤ b && b < 192

/-- Modelled from the spec: UTF-8 well-formedness of a byte string (§4.1 and
§4.3 require string/address fields to be valid UTF-8; the UTF-8 machinery of
the standard library is not under `src/`).  The first argument counts the
continuation bytes still owed by the current multi-byte sequence; a lead byte
determines the sequence length from its range. -/
def utf8ValidAux : Nat → List Nat → Bool
  | 0, [] => true
  | 0, b :: rest =>
    if b < 128 then utf8ValidAux 0 rest
    else if b < 194 then false
    else if b < 224 then utf8ValidAux 1 rest
    else if b < 240 then utf8ValidAux 2 rest
    else if b < 245 then utf8ValidAux 3 rest
    else false
  | _ + 1, [] => false
  | k + 1, b :: rest => isCont b && utf8ValidAux k rest

/-- A byte string is well-formed UTF-8 when no continuation bytes are owed at
either end. -/
def utf8Valid (l : List Nat) : Bool :=
  utf8ValidAux 0 l

/-- Decimal rendering of a natural number, most significant digit first, as
ASCII bytes; `fuel`-structured (fuel `n` always suffices). -/
def decRenderAux : Nat → Nat → List Nat
  | 0, n => [48 + n % 10]
  | fuel + 1, n => if n < 10 then [48 + n] else decRenderAux fuel (n / 10) ++ [48 + n % 10]

/-- Decimal rendering of a natural number as ASCII bytes. -/
def decRender (n : Nat) : List Nat :=
  decRenderAux n n

/-- Decimal parsing accumulator over ASCII digit bytes. -/
def decParseAux : List Nat → Nat → Option Nat
  | [], acc => some acc
  | c :: rest, acc =>
    if 48 ≤ c ∧ c ≤ 57 then decParseAux rest (acc * 10 + (c - 48)) else none

/-- Parse a nonempty ASCII digit string as a natural number. -/
def decParse : List Nat → Option Nat
  | [] => none
  | c :: rest => decParseAux (c :: rest) 0

/-- Modelled from the spec: one segment of a structured address (§4.1, §3
"Address"; the `multiaddr` crate is not under `src/`).  The grammar covers the
protocol/value pairs exercised by this module: an IPv4 segment and a TCP
segment. -/
inductive AddrSeg where
  | ip4 (a b c d : Fin 256)
  | tcp (port : Fin 65536)
deriving DecidableEq, Repr

/-- Modelled from the spec: a structured, self-describing network address —
a sequence of protocol/value segments (§3 "Address"). -/
abbrev Multiaddr := List AddrSeg

/-- The textual components (tag and value strings, as ASCII bytes) of one
address segment, e.g. `["ip4", "5.6.7.8"]`. -/
def segComponents : AddrSeg → List (List Nat)
  | .ip4 a b c d =>
      [[105, 112, 52],
       List.intercalate [46] [decRender a.val, decRender b.val, decRender c.val, decRender d.val]]
  | .tcp p => [[116, 99, 112], decRender p.val]

/-- Modelled from the spec: the canonical textual rendering of an address
(§4.1), e.g. `/ip4/5.6.7.8/tcp/12345`, as ASCII bytes. -/
def multiaddrRender (m : Multiaddr) : List Nat :=
  List.intercalate [47] ([] :: (m.map segComponents).flatten)

/-- Parse the value string of an `ip4` segment: four dotted decimal octets. -/
def parseIp4 (val : List Nat) : Option AddrSeg :=
  match val.splitOn 46 with
  | [sa, sb, sc, sd] =>
    match decParse sa, decParse sb, decParse sc, decParse sd with
    | some a, some b, some c, some d =>
      if h : a < 256 ∧ b < 256 ∧ c < 256 ∧ d < 256 then
        some (.ip4 ⟨a, h.1⟩ ⟨b, h.2.1⟩ ⟨c, h.2.2.1⟩ ⟨d, h.2.2.2⟩)
      else none
    | _, _, _, _ => none
  | _ => none

/-- Parse one tag/value component pair into an address segment; unknown tags
and malformed values fail (§4.1). -/
def parseSeg (tag val : List Nat) : Option AddrSeg :=
  if tag = [105, 112, 52] then parseIp4 val
  else if tag = [116, 99, 112] then
    match decParse val with
    | some n => if h : n < 65536 then some (.tcp ⟨n, h⟩) else none
    | none => none
  else none

/-- Parse an alternating tag/value component list into address segments; a tag
with a missing value fails (§4.1 "trailing/missing data"). -/
def parseSegs : List (List Nat) → Option Multiaddr
  | [] => some []
  | [_] => none
  | tag :: val :: rest =>
    match parseSeg tag val, parseSegs rest with
    | some s, some segs => some (s :: segs)
    | _, _ => none

/-- Modelled from the spec: parse the textual form of an address (§4.1).  The
input must start with `/` (or be empty); components are split on `/`. -/
def multiaddrParse (l : List Nat) : Option Multiaddr :=
  match l.splitOn 47 with
  | [] => none
  | c0 :: rest => if c0 = [] then parseSegs rest else none

/-- The kind carried by a `std::io::Error`.  The module only ever constructs
`InvalidData` errors; every other kind (I/O failures propagated from the
stream) is collapsed into `other`. -/
inductive IoErrorKind where
  | invalidData
  | other
deriving DecidableEq, Repr

/-- The underlying error wrapped inside an `io::Error` by this module:
a protobuf parse error, a `FromUtf8Error`, a multiaddr parse error, or a
framing error from the varint codec. -/
inductive ErrCause where
  | protobufError
  | utf8Error
  | addrParseError
  | frameError
deriving DecidableEq, Repr

/-- Embedding of `std::io::Error` as constructed by `IoError::new(kind, err)`:
a kind plus the wrapped source error. -/
structure IoError where
  kind : IoErrorKind
  cause : ErrCause
deriving DecidableEq, Repr

/-- From `bytes_to_multiaddr` (lib.rs:173-182): UTF-8-validate the bytes, then
parse the string as a `Multiaddr`; each failure becomes an
`IoError::new(InvalidData, err)` wrapping the respective cause. -/
def bytes_to_multiaddr (bytes : List Nat) : Except IoError Multiaddr :=
  if utf8Valid bytes then
    match multiaddrParse bytes with
    | some ma => .ok ma
    | none => .error ⟨.invalidData, .addrParseError⟩
  else .error ⟨.invalidData, .utf8Error⟩

/-- Modelled from the spec: the wire message of §4.3 (the generated
`structs_proto::Identify` is not under `src/`).  String fields are represented
by their UTF-8 bytes; all fields default to empty when absent. -/
structure Identify where
  publicKey : List Nat
  listenAddrs : List (List Nat)
  protocols : List (List Nat)
  observedAddr : List Nat
  protocolVersion : List Nat
  agentVersion : List Nat
deriving DecidableEq, Repr

/-- The all-defaults message: every field absent. -/
def defaultIdentify : Identify :=
  ⟨[], [], [], [], [], []⟩

/-- Modelled from the spec: one length-delimited protobuf field (§4.3
"numbered tag + length-prefixed value"): key varint `tag*8+2`, length varint,
payload. -/
def encodeField (tag : Nat) (p : List Nat) : List Nat :=
  varintEncode (tag * 8 + 2) ++ varintEncode p.length ++ p

/-- Concatenation of encoded fields, in order. -/
def encodeFields (fl : List (Nat × List Nat)) : List Nat :=
  (fl.map fun tp => encodeField tp.1 tp.2).flatten

/-- The tag/payload field list of an `Identify` message, in tag order
(publicKey=1, listenAddrs=2, protocols=3, observedAddr=4, protocolVersion=5,
agentVersion=6), repeated fields in original order (§4.3). -/
def identifyFieldList (m : Identify) : List (Nat × List Nat) :=
  (1, m.publicKey) :: (m.listenAddrs.map fun a => (2, a))
    ++ (m.protocols.map fun s => (3, s))
    ++ [(4, m.observedAddr), (5, m.protocolVersion), (6, m.agentVersion)]

/-- Modelled from the spec: serialization of the wire message
(`Identify::write_to_bytes`, §4.3). -/
def encodeIdentify (m : Identify) : List Nat :=
  encodeFields (identifyFieldList m)

/-- Merge one decoded field into the message under construction: singular
fields are overwritten, repeated fields appended, unknown tags skipped; string
fields (3, 5, 6) must be valid UTF-8 or the whole parse fails (§4.3). -/
def setField (t : Nat) (p : List Nat) (acc : Identify) : Option Identify :=
  if t = 1 then some { acc with publicKey := p }
  else if t = 2 then some { acc with listenAddrs := acc.listenAddrs ++ [p] }
  else if t = 3 then
    if utf8Valid p then some { acc with protocols := acc.protocols ++ [p] } else none
  else if t = 4 then some { acc with observedAddr := p }
  else if t = 5 then
    if utf8Valid p then some { acc with protocolVersion := p } else none
  else if t = 6 then
    if utf8Valid p then some { acc with agentVersion := p } else none
  else some acc

/-- Modelled from the spec: the field-by-field protobuf decode loop (§4.3).
Each step reads a key varint, requires the length-delimited wire type, reads
the length varint and payload, and merges the field; a truncated or
structurally broken byte stream fails.  One unit of fuel is spent per field,
so `bytes.length + 1` fuel always suffices. -/
def decodeFieldsAux : Nat → List Nat → Identify → Option Identify
  | 0, _, _ => none
  | fuel + 1, bytes, acc =>
    if bytes = [] then some acc
    else
      (varintDecode bytes).bind fun kr =>
        if kr.1 % 8 = 2 then
          (varintDecode kr.2).bind fun lr =>
            if lr.1 ≤ lr.2.length then
              (setField (kr.1 / 8) (lr.2.take lr.1) acc).bind fun acc2 =>
                decodeFieldsAux fuel (lr.2.drop lr.1) acc2
            else none
        else none

/-- Modelled from the spec: `protobuf::parse_from_bytes::<Identify>` (§4.3). -/
def decodeIdentify (bytes : List Nat) : Option Identify :=
  decodeFieldsAux (bytes.length + 1) bytes defaultIdentify

/-- Information sent from the listener to the dialer (lib.rs:68-82); string
fields represented by their UTF-8 bytes. -/
structure IdentifyInfo where
  public_key : List Nat
  protocol_version : List Nat
  agent_version : List Nat
  listen_addrs : List Multiaddr
  observed_addr : Multiaddr
  protocols : List (List Nat)
deriving DecidableEq, Repr

/-- The listen-address loop of `parse_proto_msg` (lib.rs:146-152): convert
each address in order, propagating the first failure. -/
def parseAddrs : List (List Nat) → Except IoError (List Multiaddr)
  | [] => .ok []
  | a :: rest =>
    match bytes_to_multiaddr a with
    | .error e => .error e
    | .ok ma =>
      match parseAddrs rest with
      | .error e => .error e
      | .ok mas => .ok (ma :: mas)

/-- From `parse_proto_msg` (lib.rs:143-170): protobuf-decode the bytes (failure
becomes an `InvalidData` error wrapping the protobuf error), then convert the
listen addresses and the observed address, and assemble the `IdentifyInfo`. -/
def parse_proto_msg (msg : List Nat) : Except IoError IdentifyInfo :=
  match decodeIdentify msg with
  | none => .error ⟨.invalidData, .protobufError⟩
  | some m =>
    match parseAddrs m.listenAddrs with
    | .error e => .error e
    | .ok addrs =>
      match bytes_to_multiaddr m.observedAddr with
      | .error e => .error e
      | .ok obs =>
        .ok ⟨m.publicKey, m.protocolVersion, m.agentVersion, addrs, obs, m.protocols⟩

/-- Prototype for an upgrade to the identity protocol (lib.rs:52-64); string
fields represented by their UTF-8 bytes, addresses structured. -/
structure IdentifyProtocol where
  public_key : List Nat
  protocol_version : List Nat
  agent_version : List Nat
  listen_addrs : List Multiaddr
  protocols : List (List Nat)
deriving DecidableEq, Repr

/-- From `protocol_names` (lib.rs:92-95): the single negotiated protocol
token. -/
def protocol_names (_ : IdentifyProtocol) : List String :=
  ["/ipfs/id/1.0.0"]

/-- Connection role (`libp2p_swarm::Endpoint`). -/
inductive Endpoint where
  | dialer
  | listener
deriving DecidableEq, Repr

/-- The wire message built on the listener path (lib.rs:115-126): every field
set from the local announcement, addresses rendered to their textual bytes,
`observedAddr` set from the remote's address. -/
def listenerMessage (p : IdentifyProtocol) (remote : Multiaddr) : Identify :=
  { publicKey := p.public_key
    listenAddrs := p.listen_addrs.map multiaddrRender
    protocols := p.protocols
    observedAddr := multiaddrRender remote
    protocolVersion := p.protocol_version
    agentVersion := p.agent_version }

/-- The payload of the single frame the listener writes (lib.rs:120-129). -/
def listenerBytes (p : IdentifyProtocol) (remote : Multiaddr) : List Nat :=
  encodeIdentify (listenerMessage p remote)

/-- Result of reading the first frame from a finite (closed) byte stream. -/
inductive FrameRead where
  | closed
  | malformed
  | frame (payload : List Nat) (rest : List Nat)
deriving DecidableEq, Repr

/-- Modelled from the spec: reading one varint-length-prefixed frame (§4.2).
End of stream before any byte is a clean close; a truncated length prefix or a
payload shorter than declared is a malformed stream. -/
def readFrame (stream : List Nat) : FrameRead :=
  if stream = [] then .closed
  else
    match varintDecode stream with
    | none => .malformed
    | some lr =>
      if lr.1 ≤ lr.2.length then .frame (lr.2.take lr.1) (lr.2.drop lr.1) else .malformed

/-- From `IdentifyProtocol::upgrade` (lib.rs:97-138), with the stream embedded
as the finite byte sequence received (dialer) and the result extended with the
list of frames written (listener).  The dialer takes the first frame of the
framed stream: none means `Ok(None)`; otherwise the frame is decoded by
`parse_proto_msg`.  The listener writes the one encoded announcement frame and
produces `None` without reading. -/
def upgrade (p : IdentifyProtocol) (stream : List Nat) (ty : Endpoint)
    (remote_addr : Multiaddr) : Except IoError (List (List Nat) × Option IdentifyInfo) :=
  match ty with
  | .dialer =>
    match readFrame stream with
    | .closed => .ok ([], none)
    | .malformed => .error ⟨.invalidData, .frameError⟩
    | .frame payload _ =>
      match parse_proto_msg payload with
      | .error e => .error e
      | .ok info => .ok ([], some info)
  | .listener => .ok ([listenerBytes p remote_addr], none)

deriving instance DecidableEq for Except

/-! ### Varint round trip -/

theorem varintEncodeAux_ne_nil (fuel n : Nat) : varintEncodeAux fuel n ≠ [] := by
  cases fuel with
  | zero => simp [varintEncodeAux]
  | succ f =>
    simp only [varintEncodeAux]
    split <;> simp

theorem varintEncode_ne_nil (n : Nat) : varintEncode n ≠ [] :=
  varintEncodeAux_ne_nil n n

theorem varintDecode_encodeAux (fuel n : Nat) (rest : List Nat) (h : n ≤ fuel) :
    varintDecode (varintEncodeAux fuel n ++ rest) = some (n, rest) := by
  induction fuel generalizing n with
  | zero =>
    have hn : n = 0 := Nat.le_zero.mp h
    subst hn
    simp [varintEncodeAux, varintDecode]
  | succ f ih =>
    by_cases hlt : n < 128
    · simp [varintEncodeAux, hlt, varintDecode]
    · have hrec : n / 128 ≤ f := by omega
      simp only [varintEncodeAux, if_neg hlt, List.cons_append, varintDecode]
      rw [if_neg (by omega), ih (n / 128) hrec]
      simp only [Option.map_some', Option.some.injEq, Prod.mk.injEq]
      exact ⟨by omega, trivial⟩

theorem varintDecode_encode (n : Nat) (rest : List Nat) :
    varintDecode (varintEncode n ++ rest) = some (n, rest) :=
  varintDecode_encodeAux n n rest (Nat.le_refl n)

/-! ### Protobuf field-list decoding -/

/-- Folding `setField` over a tag/payload list, as the decode loop does on an
encoded field list. -/
def applyFields : List (Nat × List Nat) → Identify → Option Identify
  | [], acc => some acc
  | tp :: rest, acc => (setField tp.1 tp.2 acc).bind (applyFields rest)

theorem encodeField_ne_nil (t : Nat) (p : List Nat) : encodeField t p ≠ [] := by
  unfold encodeField
  intro hcontra
  exact varintEncode_ne_nil (t * 8 + 2) (List.append_eq_nil.mp
    (List.append_eq_nil.mp hcontra).1).1

theorem length_le_encodeFields (fl : List (Nat × List Nat)) :
    fl.length ≤ (encodeFields fl).length := by
  induction fl with
  | nil => simp [encodeFields]
  | cons tp rest ih =>
    have h1 : 1 ≤ (encodeField tp.1 tp.2).length :=
      List.length_pos.mpr (encodeField_ne_nil tp.1 tp.2)
    simp only [encodeFields, List.map_cons, List.flatten_cons, List.length_append,
      List.length_cons]
    simp only [encodeFields] at ih
    omega

theorem decodeFieldsAux_encodeFields (fl : List (Nat × List Nat)) :
    ∀ (fuel : Nat) (acc : Identify), fl.length < fuel →
    decodeFieldsAux fuel (encodeFields fl) acc = applyFields fl acc := by
  induction fl with
  | nil =>
    intro fuel acc h
    match fuel, h with
    | f + 1, _ => simp [encodeFields, decodeFieldsAux, applyFields]
  | cons tp rest ih =>
    intro fuel acc h
    match fuel, h with
    | f + 1, h =>
      obtain ⟨t, p⟩ := tp
      have hne : encodeFields ((t, p) :: rest) ≠ [] := by
        simp only [encodeFields, List.map_cons, List.flatten_cons]
        intro hc
        exact encodeField_ne_nil t p (List.append_eq_nil.mp hc).1
      have hexp : encodeFields ((t, p) :: rest) =
          varintEncode (t * 8 + 2) ++ (varintEncode p.length ++ (p ++ encodeFields rest)) := by
        simp [encodeFields, encodeField, List.append_assoc]
      have hmod : (t * 8 + 2) % 8 = 2 := by omega
      have hdiv : (t * 8 + 2) / 8 = t := by omega
      simp only [decodeFieldsAux, if_neg hne]
      rw [hexp, varintDecode_encode, Option.some_bind]
      simp only [hmod, hdiv, varintDecode_encode, Option.some_bind, if_true, eq_self_iff_true]
      have hle : p.length ≤ (p ++ encodeFields rest).length := by simp
      rw [if_pos hle, List.take_left p (encodeFields rest), List.drop_left p (encodeFields rest)]
      simp only [applyFields]
      cases hsf : setField t p acc with
      | none => simp [hsf]
      | some acc2 =>
        simp only [hsf, Option.some_bind]
        exact ih f acc2 (by simpa using Nat.lt_of_succ_lt_succ h)

theorem decodeFieldsAux_full (fl : List (Nat × List Nat)) (acc : Identify) :
    decodeFieldsAux ((encodeFields fl).length + 1) (encodeFields fl) acc = applyFields fl acc :=
  decodeFieldsAux_encodeFields fl _ acc (Nat.lt_succ_of_le (length_le_encodeFields fl))

theorem applyFields_append (fl1 fl2 : List (Nat × List Nat)) (acc : Identify) :
    applyFields (fl1 ++ fl2) acc = (applyFields fl1 acc).bind (applyFields fl2) := by
  induction fl1 generalizing acc with
  | nil => simp [applyFields]
  | cons tp rest ih =>
    simp only [List.cons_append, applyFields]
    cases setField tp.1 tp.2 acc with
    | none => rfl
    | some acc2 => exact ih acc2

theorem applyFields_listenAddrs (addrs : List (List Nat)) (acc : Identify) :
    applyFields (addrs.map fun a => (2, a)) acc =
      some { acc with listenAddrs := acc.listenAddrs ++ addrs } := by
  induction addrs generalizing acc with
  | nil => simp [applyFields]
  | cons a rest ih =>
    simp only [List.map_cons, applyFields, setField]
    norm_num [Option.some_bind]
    rw [ih]
    simp

theorem applyFields_protocols (protos : List (List Nat)) (acc : Identify)
    (h : ∀ s ∈ protos, utf8Valid s) :
    applyFields (protos.map fun s => (3, s)) acc =
      some { acc with protocols := acc.protocols ++ protos } := by
  induction protos generalizing acc with
  | nil => simp [applyFields]
  | cons s rest ih =>
    simp only [List.map_cons, applyFields, setField]
    norm_num [h s (List.mem_cons_self s rest), Option.some_bind]
    rw [ih _ fun x hx => h x (List.mem_cons_of_mem s hx)]
    simp

theorem applyFields_identify (m : Identify)
    (h3 : ∀ s ∈ m.protocols, utf8Valid s)
    (h5 : utf8Valid m.protocolVersion)
    (h6 : utf8Valid m.agentVersion) :
    applyFields (identifyFieldList m) defaultIdentify = some m := by
  simp only [identifyFieldList, applyFields, setField]
  norm_num [Option.some_bind]
  rw [applyFields_append, applyFields_listenAddrs, Option.some_bind, applyFields_append,
    applyFields_protocols _ _ h3, Option.some_bind]
  simp only [applyFields, setField]
  norm_num [h5, h6, Option.some_bind]
  simp [defaultIdentify]

/-- Protobuf round trip: decoding an encoded message recovers it field-for-field
(strings must be valid UTF-8, which `String`-typed Rust fields guarantee). -/
theorem decodeIdentify_encodeIdentify (m : Identify)
    (h3 : ∀ s ∈ m.protocols, utf8Valid s)
    (h5 : utf8Valid m.protocolVersion)
    (h6 : utf8Valid m.agentVersion) :
    decodeIdentify (encodeIdentify m) = some m := by
  unfold decodeIdentify encodeIdentify
  rw [decodeFieldsAux_full, applyFields_identify m h3 h5 h6]

/-! ### Decimal round trip -/

theorem decRenderAux_digits (fuel n : Nat) :
    ∀ c ∈ decRenderAux fuel n, 48 ≤ c ∧ c ≤ 57 := by
  induction fuel generalizing n with
  | zero =>
    intro c hc
    simp only [decRenderAux, List.mem_singleton] at hc
    omega
  | succ f ih =>
    intro c hc
    simp only [decRenderAux] at hc
    split at hc
    · simp only [List.mem_singleton] at hc
      omega
    · rcases List.mem_append.mp hc with h1 | h2
      · exact ih (n / 10) c h1
      · simp only [List.mem_singleton] at h2
        omega

theorem decRender_digits (n : Nat) : ∀ c ∈ decRender n, 48 ≤ c ∧ c ≤ 57 :=
  decRenderAux_digits n n

theorem decRenderAux_ne_nil (fuel n : Nat) : decRenderAux fuel n ≠ [] := by
  cases fuel with
  | zero => simp [decRenderAux]
  | succ f =>
    simp only [decRenderAux]
    split <;> simp

theorem decParseAux_append (l1 l2 : List Nat) (acc : Nat) :
    decParseAux (l1 ++ l2) acc =
      match decParseAux l1 acc with
      | none => none
      | some a => decParseAux l2 a := by
  induction l1 generalizing acc with
  | nil => simp [decParseAux]
  | cons c rest ih =>
    simp only [List.cons_append, decParseAux]
    split
    · exact ih _
    · rfl

theorem decParseAux_render (fuel n : Nat) (h : n ≤ fuel) :
    ∀ acc : Nat, decParseAux (decRenderAux fuel n) acc =
      some (acc * 10 ^ (decRenderAux fuel n).length + n) := by
  induction fuel generalizing n with
  | zero =>
    intro acc
    have hn : n = 0 := Nat.le_zero.mp h
    subst hn
    simp [decRenderAux, decParseAux]
  | succ f ih =>
    intro acc
    by_cases hlt : n < 10
    · simp only [decRenderAux, if_pos hlt, decParseAux, List.length_singleton]
      rw [if_pos (by omega)]
      simp only [decParseAux, Option.some.injEq]
      omega
    · have hrec : n / 10 ≤ f := by omega
      simp only [decRenderAux, if_neg hlt]
      rw [decParseAux_append, ih (n / 10) hrec acc]
      simp only [decParseAux]
      rw [if_pos (by omega)]
      simp only [decParseAux, Option.some.injEq, List.length_append,
        List.length_singleton]
      have hmod : 48 + n % 10 - 48 = n % 10 := by omega
      rw [hmod, pow_succ, ← mul_assoc]
      generalize acc * 10 ^ (decRenderAux f (n / 10)).length = A
      omega

theorem decParse_decRender (n : Nat) : decParse (decRender n) = some n := by
  have h0 := decParseAux_render n n (Nat.le_refl n) 0
  unfold decParse
  cases hr : decRender n with
  | nil => exact absurd hr (decRenderAux_ne_nil n n)
  | cons c rest =>
    simp only []
    rw [← hr]
    unfold decRender
    rw [h0]
    simp

/-! ### Multiaddr round trip -/

theorem intercalate_cons_cons (sep x y : List Nat) (rest : List (List Nat)) :
    List.intercalate sep (x :: y :: rest) = x ++ sep ++ List.intercalate sep (y :: rest) := by
  simp [List.intercalate, List.intersperse]

theorem mem_intercalate_sep (sep : List Nat) (ls : List (List Nat)) (b : Nat)
    (hb : b ∈ List.intercalate sep ls) : b ∈ sep ∨ ∃ c ∈ ls, b ∈ c := by
  induction ls with
  | nil => simp [List.intercalate] at hb
  | cons x tail ih =>
    cases tail with
    | nil =>
      simp only [List.intercalate, List.intersperse, List.flatten] at hb
      right
      exact ⟨x, List.mem_cons_self x [], by simpa using hb⟩
    | cons y rest =>
      rw [intercalate_cons_cons] at hb
      rcases List.mem_append.mp hb with h1 | h2
      · rcases List.mem_append.mp h1 with h3 | h4
        · exact Or.inr ⟨x, List.mem_cons_self _ _, h3⟩
        · exact Or.inl h4
      · rcases ih h2 with h5 | ⟨c, hc, hbc⟩
        · exact Or.inl h5
        · exact Or.inr ⟨c, List.mem_cons_of_mem x hc, hbc⟩

theorem segComponents_no_slash (s : AddrSeg) : ∀ c ∈ segComponents s, 47 ∉ c := by
  cases s with
  | ip4 a b c d =>
    intro comp hcomp
    simp only [segComponents, List.mem_cons, List.not_mem_nil, or_false] at hcomp
    rcases hcomp with h1 | h2
    · subst h1; decide
    · subst h2
      intro hmem
      rcases mem_intercalate_sep [46] _ 47 hmem with h | ⟨cc, hcc, hin⟩
      · simp at h
      · simp only [List.mem_cons, List.not_mem_nil, or_false] at hcc
        rcases hcc with h | h | h | h <;>
          (subst h; have hd := decRender_digits _ 47 hin; omega)
  | tcp p =>
    intro comp hcomp
    simp only [segComponents, List.mem_cons, List.not_mem_nil, or_false] at hcomp
    rcases hcomp with h1 | h2
    · subst h1; decide
    · subst h2
      intro hmem
      have hd := decRender_digits p.val 47 hmem
      omega

theorem components_no_slash (m : Multiaddr) :
    ∀ c ∈ [] :: (m.map segComponents).flatten, (47 : Nat) ∉ c := by
  intro c hc
  rcases List.mem_cons.mp hc with h1 | h2
  · subst h1; simp
  · rcases List.mem_flatten.mp h2 with ⟨l, hl, hcl⟩
    rcases List.mem_map.mp hl with ⟨s, _, hsl⟩
    subst hsl
    exact segComponents_no_slash s c hcl

theorem no_dot_in_decRender (k : Nat) : (46 : Nat) ∉ decRender k := by
  intro hmem
  have hd := decRender_digits k 46 hmem
  omega

theorem parseIp4_render (a b c d : Fin 256) :
    parseIp4 (List.intercalate [46]
      [decRender a.val, decRender b.val, decRender c.val, decRender d.val]) =
      some (.ip4 a b c d) := by
  unfold parseIp4
  rw [List.splitOn_intercalate _ 46 ?hx ?hls]
  case hx =>
    intro l hl
    simp only [List.mem_cons, List.not_mem_nil, or_false] at hl
    rcases hl with h | h | h | h <;> (subst h; exact no_dot_in_decRender _)
  case hls => simp
  simp only [decParse_decRender]
  rw [dif_pos ⟨a.isLt, b.isLt, c.isLt, d.isLt⟩]

theorem parseSeg_components (s : AddrSeg) :
    parseSeg (segComponents s).head! ((segComponents s).tail).head! = some s := by
  cases s with
  | ip4 a b c d =>
    simp only [segComponents, List.head!, List.tail]
    unfold parseSeg
    rw [if_pos rfl]
    exact parseIp4_render a b c d
  | tcp p =>
    simp only [segComponents, List.head!, List.tail]
    unfold parseSeg
    rw [if_neg (by decide), if_pos rfl, decParse_decRender]
    simp only [Option.some.injEq]
    rw [dif_pos p.isLt]

theorem parseSegs_cons (tag val : List Nat) (rest : List (List Nat)) :
    parseSegs (tag :: val :: rest) =
      match parseSeg tag val, parseSegs rest with
      | some s, some segs => some (s :: segs)
      | _, _ => none := rfl

theorem parseSegs_flatten (m : Multiaddr) :
    parseSegs ((m.map segComponents).flatten) = some m := by
  induction m with
  | nil => rfl
  | cons s rest ih =>
    have hflat : ((s :: rest).map segComponents).flatten =
        (segComponents s).head! :: ((segComponents s).tail).head! ::
          (rest.map segComponents).flatten := by
      cases s <;> rfl
    rw [hflat, parseSegs_cons, parseSeg_components s, ih]

theorem multiaddrParse_render (m : Multiaddr) :
    multiaddrParse (multiaddrRender m) = some m := by
  unfold multiaddrParse multiaddrRender
  rw [List.splitOn_intercalate _ 47 (components_no_slash m) (List.cons_ne_nil _ _)]
  exact parseSegs_flatten m

/-! ### ASCII renderings are valid UTF-8 -/

theorem segComponents_ascii (s : AddrSeg) : ∀ c ∈ segComponents s, ∀ b ∈ c, b < 128 := by
  cases s with
  | ip4 a b c d =>
    intro comp hcomp
    simp only [segComponents, List.mem_cons, List.not_mem_nil, or_false] at hcomp
    rcases hcomp with h1 | h2
    · subst h1; decide
    · subst h2
      intro bb hbb
      rcases mem_intercalate_sep [46] _ bb hbb with h | ⟨cc, hcc, hin⟩
      · simp only [List.mem_singleton] at h
        omega
      · simp only [List.mem_cons, List.not_mem_nil, or_false] at hcc
        rcases hcc with h | h | h | h <;>
          (subst h; have hd := decRender_digits _ bb hin; omega)
  | tcp p =>
    intro comp hcomp
    simp only [segComponents, List.mem_cons, List.not_mem_nil, or_false] at hcomp
    rcases hcomp with h1 | h2
    · subst h1; decide
    · subst h2
      intro bb hbb
      have hd := decRender_digits p.val bb hbb
      omega

theorem multiaddrRender_ascii (m : Multiaddr) : ∀ b ∈ multiaddrRender m, b < 128 := by
  intro b hb
  unfold multiaddrRender at hb
  rcases mem_intercalate_sep [47] _ b hb with h | ⟨c, hc, hbc⟩
  · simp only [List.mem_singleton] at h
    omega
  · rcases List.mem_cons.mp hc with h1 | h2
    · subst h1; simp at hbc
    · rcases List.mem_flatten.mp h2 with ⟨l, hl, hcl⟩
      rcases List.mem_map.mp hl with ⟨s, _, hsl⟩
      subst hsl
      exact segComponents_ascii s c hcl b hbc

theorem utf8Valid_of_ascii (l : List Nat) (h : ∀ b ∈ l, b < 128) : utf8Valid l = true := by
  induction l with
  | nil => rfl
  | cons b rest ih =>
    have hb : b < 128 := h b (List.mem_cons_self b rest)
    show utf8ValidAux 0 (b :: rest) = true
    simp only [utf8ValidAux, if_pos hb]
    exact ih fun x hx => h x (List.mem_cons_of_mem b hx)

/-- Address round trip: the canonical rendering of an address parses back to
the same address (spec §4.1, §8 "Address round-trip"). -/
theorem bytes_to_multiaddr_render (m : Multiaddr) :
    bytes_to_multiaddr (multiaddrRender m) = .ok m := by
  unfold bytes_to_multiaddr
  rw [if_pos (utf8Valid_of_ascii _ (multiaddrRender_ascii m)), multiaddrParse_render m]

theorem parseAddrs_cons (a : List Nat) (rest : List (List Nat)) :
    parseAddrs (a :: rest) =
      match bytes_to_multiaddr a with
      | .error e => .error e
      | .ok ma =>
        match parseAddrs rest with
        | .error e => .error e
        | .ok mas => .ok (ma :: mas) := rfl

theorem parseAddrs_map_render (addrs : List Multiaddr) :
    parseAddrs (addrs.map multiaddrRender) = .ok addrs := by
  induction addrs with
  | nil => rfl
  | cons a rest ih =>
    rw [List.map_cons, parseAddrs_cons, bytes_to_multiaddr_render, ih]

/-- Full encode/decode round trip of the listener announcement: the dialer-side
decoder recovers the announcement field-for-field, with `observed_addr` equal
to the remote address the listener was given. -/
theorem parse_listenerBytes (p : IdentifyProtocol) (remote : Multiaddr)
    (hpv : utf8Valid p.protocol_version)
    (hav : utf8Valid p.agent_version)
    (hpr : ∀ s ∈ p.protocols, utf8Valid s) :
    parse_proto_msg (listenerBytes p remote) =
      .ok ⟨p.public_key, p.protocol_version, p.agent_version,
           p.listen_addrs, remote, p.protocols⟩ := by
  unfold listenerBytes parse_proto_msg
  rw [decodeIdentify_encodeIdentify (listenerMessage p remote) hpr hpv hav]
  simp only [listenerMessage]
  rw [parseAddrs_map_render, bytes_to_multiaddr_render]

/-! ### Error shapes and all-or-nothing decoding -/

theorem bytes_to_multiaddr_error_shape (b : List Nat) (e : IoError)
    (h : bytes_to_multiaddr b = .error e) :
    e = ⟨.invalidData, .utf8Error⟩ ∨ e = ⟨.invalidData, .addrParseError⟩ := by
  unfold bytes_to_multiaddr at h
  by_cases hu : utf8Valid b
  · rw [if_pos hu] at h
    cases hm : multiaddrParse b with
    | some ma =>
      rw [hm] at h
      have h2 : (Except.ok ma : Except IoError Multiaddr) = .error e := h
      exact Except.noConfusion h2
    | none =>
      rw [hm] at h
      have h2 : (Except.error ⟨.invalidData, .addrParseError⟩ : Except IoError Multiaddr) =
          .error e := h
      right
      cases h2
      rfl
  · rw [if_neg hu] at h
    left
    cases h
    rfl

theorem parseAddrs_error_shape (l : List (List Nat)) (e : IoError)
    (h : parseAddrs l = .error e) :
    e = ⟨.invalidData, .utf8Error⟩ ∨ e = ⟨.invalidData, .addrParseError⟩ := by
  induction l with
  | nil =>
    have h2 : (Except.ok [] : Except IoError (List Multiaddr)) = .error e := h
    exact Except.noConfusion h2
  | cons a rest ih =>
    rw [parseAddrs_cons] at h
    cases hb : bytes_to_multiaddr a with
    | error e2 =>
      rw [hb] at h
      have h2 : (Except.error e2 : Except IoError (List Multiaddr)) = .error e := h
      cases h2
      exact bytes_to_multiaddr_error_shape a _ hb
    | ok ma =>
      rw [hb] at h
      cases hr : parseAddrs rest with
      | error e2 =>
        rw [hr] at h
        have h2 : (Except.error e2 : Except IoError (List Multiaddr)) = .error e := h
        cases h2
        exact ih hr
      | ok mas =>
        rw [hr] at h
        have h2 : (Except.ok (ma :: mas) : Except IoError (List Multiaddr)) = .error e := h
        exact Except.noConfusion h2

theorem parseAddrs_error_of_mem (l : List (List Nat)) (a : List Nat) (ha : a ∈ l)
    (e : IoError) (he : bytes_to_multiaddr a = .error e) :
    ∃ e2, parseAddrs l = .error e2 := by
  induction l with
  | nil => exact absurd ha (List.not_mem_nil a)
  | cons x rest ih =>
    rw [parseAddrs_cons]
    cases hb : bytes_to_multiaddr x with
    | error e2 => exact ⟨e2, rfl⟩
    | ok ma =>
      rcases List.mem_cons.mp ha with h1 | h2
      · subst h1
        rw [hb] at he
        exact Except.noConfusion he
      · obtain ⟨e2, he2⟩ := ih h2
        rw [he2]
        exact ⟨e2, rfl⟩

theorem parseAddrs_ok_spec (l : List (List Nat)) :
    ∀ r : List Multiaddr, parseAddrs l = .ok r →
      r.length = l.length ∧
      ∀ i (h1 : i < l.length) (h2 : i < r.length),
        bytes_to_multiaddr (l.get ⟨i, h1⟩) = .ok (r.get ⟨i, h2⟩) := by
  induction l with
  | nil =>
    intro r h
    have h2 : (Except.ok [] : Except IoError (List Multiaddr)) = .ok r := h
    cases h2
    exact ⟨rfl, fun i h1 _ => absurd h1 (Nat.not_lt_zero i)⟩
  | cons a rest ih =>
    intro r h
    rw [parseAddrs_cons] at h
    cases hb : bytes_to_multiaddr a with
    | error e2 =>
      rw [hb] at h
      have h2 : (Except.error e2 : Except IoError (List Multiaddr)) = .ok r := h
      exact Except.noConfusion h2
    | ok ma =>
      rw [hb] at h
      cases hr : parseAddrs rest with
      | error e2 =>
        rw [hr] at h
        have h2 : (Except.error e2 : Except IoError (List Multiaddr)) = .ok r := h
        exact Except.noConfusion h2
      | ok mas =>
        rw [hr] at h
        have h2 : (Except.ok (ma :: mas) : Except IoError (List Multiaddr)) = .ok r := h
        cases h2
        obtain ⟨hlen, hidx⟩ := ih mas hr
        refine ⟨by simpa using hlen, ?_⟩
        intro i h1 h2
        cases i with
        | zero => simpa using hb
        | succ j =>
          have hj1 : j < rest.length := by simpa using h1
          have hj2 : j < mas.length := by simpa using h2
          simpa using hidx j hj1 hj2

theorem readFrame_frame (payload rest : List Nat) :
    readFrame (varintEncode payload.length ++ payload ++ rest) = .frame payload rest := by
  unfold readFrame
  rw [if_neg ?hne]
  case hne =>
    intro hc
    exact varintEncode_ne_nil _ (List.append_eq_nil.mp ((List.append_eq_nil.mp hc).1)).1
  rw [List.append_assoc, varintDecode_encode]
  show (if payload.length ≤ (payload ++ rest).length then
      FrameRead.frame ((payload ++ rest).take payload.length)
        ((payload ++ rest).drop payload.length)
    else .malformed) = .frame payload rest
  rw [if_pos (by simp), List.take_left, List.drop_left]

theorem parse_proto_msg_some (msg : List Nat) (m : Identify)
    (hm : decodeIdentify msg = some m) :
    parse_proto_msg msg =
      match parseAddrs m.listenAddrs with
      | .error e => .error e
      | .ok addrs =>
        match bytes_to_multiaddr m.observedAddr with
        | .error e => .error e
        | .ok obs =>
          .ok ⟨m.publicKey, m.protocolVersion, m.agentVersion, addrs, obs, m.protocols⟩ := by
  unfold parse_proto_msg
  rw [hm]

/-! ### Claims -/

/-- C1: for every IdentifyAnnouncement (public key bytes, protocol-version
string, agent-version string, ordered list of canonical addresses, ordered list
of protocol strings) and every remote address, serializing it on the listener
path and then deserializing the resulting bytes via `parse_proto_msg` yields an
`IdentifyInfo` whose fields equal the announcement's field-for-field, with the
order of `listen_addrs` and `protocols` preserved and `observed_addr` equal to
the remote address given to the listener.  (The string fields are valid UTF-8,
as Rust's `String` type guarantees.) -/
theorem claim_roundtrip_listener_dialer (p : IdentifyProtocol) (remote : Multiaddr)
    (hpv : utf8Valid p.protocol_version)
    (hav : utf8Valid p.agent_version)
    (hpr : ∀ s ∈ p.protocols, utf8Valid s) :
    parse_proto_msg (listenerBytes p remote) =
      .ok { public_key := p.public_key
            protocol_version := p.protocol_version
            agent_version := p.agent_version
            listen_addrs := p.listen_addrs
            observed_addr := remote
            protocols := p.protocols } :=
  parse_listenerBytes p remote hpv hav hpr

/-- Witness for C1 at the concrete announcement of the source's test
(`public_key = [1,2,3,4]`, `protocol_version = "ipfs/1.0.0"`,
`agent_version = "agent/version"`, one listen address `/ip4/5.6.7.8/tcp/12345`,
protocols `"ping"` and `"kad"`) and remote address `/ip4/9.8.7.6/tcp/4001`. -/
theorem claim_roundtrip_listener_dialer_witness :
    utf8Valid [105, 112, 102, 115, 47, 49, 46, 48, 46, 48] = true ∧
    utf8Valid [97, 103, 101, 110, 116, 47, 118, 101, 114, 115, 105, 111, 110] = true ∧
    (∀ s ∈ [[112, 105, 110, 103], [107, 97, 100]], utf8Valid s = true) ∧
    parse_proto_msg (listenerBytes
      ⟨[1, 2, 3, 4], [105, 112, 102, 115, 47, 49, 46, 48, 46, 48],
       [97, 103, 101, 110, 116, 47, 118, 101, 114, 115, 105, 111, 110],
       [[.ip4 5 6 7 8, .tcp 12345]], [[112, 105, 110, 103], [107, 97, 100]]⟩
      [.ip4 9 8 7 6, .tcp 4001]) =
      .ok ⟨[1, 2, 3, 4], [105, 112, 102, 115, 47, 49, 46, 48, 46, 48],
           [97, 103, 101, 110, 116, 47, 118, 101, 114, 115, 105, 111, 110],
           [[.ip4 5 6 7 8, .tcp 12345]], [.ip4 9 8 7 6, .tcp 4001],
           [[112, 105, 110, 103], [107, 97, 100]]⟩ :=
  ⟨by decide, by decide, by decide,
   claim_roundtrip_listener_dialer _ _ (by decide) (by decide) (by decide)⟩

/-- C2: on the dialer path, if the stream closes before any frame arrives
(the received byte sequence is empty), the upgrade completes successfully with
result `none` ("no information received"); it does not return an error. -/
theorem claim_dialer_empty_stream_ok_none (p : IdentifyProtocol) (remote : Multiaddr) :
    upgrade p [] .dialer remote = .ok ([], none) := rfl

/-- C3: on the listener path, the upgrade writes exactly one frame (the
serialized announcement) to the stream, performs no read on the stream (the
outcome is identical for any two received byte sequences), and its result is
always `none` ("no information produced"). -/
theorem claim_listener_writes_one_frame_no_read (p : IdentifyProtocol)
    (remote : Multiaddr) (stream stream2 : List Nat) :
    upgrade p stream .listener remote = .ok ([listenerBytes p remote], none) ∧
    (upgrade p stream .listener remote).map (fun out => out.1.length) = .ok 1 ∧
    upgrade p stream .listener remote = upgrade p stream2 .listener remote :=
  ⟨rfl, rfl, rfl⟩

/-- C4 counterexample: the claim as stated is false on the code.  A corrupt
protobuf input (`[10]`, a field key with no length) and an invalid address
field (`[34, 1, 255]`, an `observedAddr` that is not UTF-8) both surface as
`io::Error`s with the SAME kind, `InvalidData` — there are no distinct
`MalformedMessage` / `InvalidAddress` kinds; moreover a bad listen address
(`[18, 1, 255]`) produces an error literally identical to the bad
observed-address error, so no offending field name is carried. -/
theorem claim_error_kinds_counterexample :
    parse_proto_msg [10] = .error ⟨.invalidData, .protobufError⟩ ∧
    parse_proto_msg [34, 1, 255] = .error ⟨.invalidData, .utf8Error⟩ ∧
    (IoError.mk .invalidData .protobufError).kind =
      (IoError.mk .invalidData .utf8Error).kind ∧
    parse_proto_msg [18, 1, 255] = parse_proto_msg [34, 1, 255] := by
  refine ⟨by decide, by decide, rfl, by decide⟩

/-- C4 amended: decoding failures are all surfaced with the single error kind
`InvalidData`; they are distinguishable only by the wrapped cause — a corrupt
tagged-binary structure wraps the protobuf parse error, while an address field
that is not valid UTF-8 or does not parse wraps the UTF-8 or address parse
error.  No offending field name is carried. -/
theorem claim_error_kinds_amended :
    (∀ msg, decodeIdentify msg = none →
      parse_proto_msg msg = .error ⟨.invalidData, .protobufError⟩) ∧
    (∀ msg m e, decodeIdentify msg = some m → parse_proto_msg msg = .error e →
      e.kind = .invalidData ∧ (e.cause = .utf8Error ∨ e.cause = .addrParseError)) := by
  constructor
  · intro msg h
    unfold parse_proto_msg
    rw [h]
  · intro msg m e hm herr
    rw [parse_proto_msg_some msg m hm] at herr
    have hshape : e = ⟨.invalidData, .utf8Error⟩ ∨ e = ⟨.invalidData, .addrParseError⟩ := by
      cases hpa : parseAddrs m.listenAddrs with
      | error e2 =>
        rw [hpa] at herr
        have h2 : (Except.error e2 : Except IoError IdentifyInfo) = .error e := herr
        cases h2
        exact parseAddrs_error_shape m.listenAddrs _ hpa
      | ok addrs =>
        rw [hpa] at herr
        cases hob : bytes_to_multiaddr m.observedAddr with
        | error e2 =>
          rw [hob] at herr
          have h2 : (Except.error e2 : Except IoError IdentifyInfo) = .error e := herr
          cases h2
          exact bytes_to_multiaddr_error_shape m.observedAddr _ hob
        | ok obs =>
          rw [hob] at herr
          have h2 : (Except.ok ⟨m.publicKey, m.protocolVersion, m.agentVersion, addrs, obs,
              m.protocols⟩ : Except IoError IdentifyInfo) = .error e := herr
          exact Except.noConfusion h2
    rcases hshape with h | h <;> subst h <;> simp

/-- Witness for C4 amended: at the corrupt input `[10]` the protobuf-level
branch fires, and at `[34, 1, 255]` (non-UTF-8 `observedAddr`) the
address-level branch fires. -/
theorem claim_error_kinds_amended_witness :
    decodeIdentify [10] = none ∧
    parse_proto_msg [10] = .error ⟨.invalidData, .protobufError⟩ ∧
    decodeIdentify [34, 1, 255] = some ⟨[], [], [], [255], [], []⟩ ∧
    parse_proto_msg [34, 1, 255] = .error ⟨.invalidData, .utf8Error⟩ ∧
    ((⟨.invalidData, .utf8Error⟩ : IoError).kind = .invalidData ∧
      ((⟨.invalidData, .utf8Error⟩ : IoError).cause = .utf8Error ∨
        (⟨.invalidData, .utf8Error⟩ : IoError).cause = .addrParseError)) :=
  ⟨by decide, claim_error_kinds_amended.1 [10] (by decide),
   by decide, by decide,
   claim_error_kinds_amended.2 [34, 1, 255] ⟨[], [], [], [255], [], []⟩
     ⟨.invalidData, .utf8Error⟩ (by decide) (by decide)⟩

/-- C5: every field absent from the wire message is decoded as its default
value (empty bytes / empty string / empty sequence) rather than causing
decoding to abort: the decode loop starts from the all-defaults message and
only fields present on the wire overwrite it; the all-absent message decodes to
all defaults, and `parse_proto_msg` does not abort on it — in particular a
missing `observedAddr` decodes (as the empty address) rather than aborting. -/
theorem claim_missing_fields_default :
    decodeIdentify [] = some defaultIdentify ∧
    parse_proto_msg [] = .ok ⟨[], [], [], [], [], []⟩ ∧
    (∀ fl, decodeIdentify (encodeFields fl) = applyFields fl defaultIdentify) ∧
    (∀ pk, decodeIdentify (encodeFields [(1, pk)]) =
      some { defaultIdentify with publicKey := pk }) ∧
    (∀ obs, decodeIdentify (encodeFields [(4, obs)]) =
      some { defaultIdentify with observedAddr := obs }) := by
  refine ⟨by decide, by decide, ?_, ?_, ?_⟩
  · intro fl
    exact decodeFieldsAux_full fl defaultIdentify
  · intro pk
    show decodeFieldsAux _ _ _ = _
    rw [decodeFieldsAux_full]
    simp [applyFields, setField]
  · intro obs
    show decodeFieldsAux _ _ _ = _
    rw [decodeFieldsAux_full]
    simp [applyFields, setField]

/-- C6: decoding is all-or-nothing.  If the protobuf layer fails,
`parse_proto_msg` errors; if any listen address or the observed address fails
to convert, `parse_proto_msg` errors; and whenever `parse_proto_msg` returns
`ok info`, every listen address and the observed address converted
successfully, elementwise and in order — no partial `IdentifyInfo` is ever
produced. -/
theorem claim_all_or_nothing (msg : List Nat) :
    (decodeIdentify msg = none → ∃ e, parse_proto_msg msg = .error e) ∧
    (∀ m, decodeIdentify msg = some m →
      ((∃ a ∈ m.listenAddrs, ∃ e, bytes_to_multiaddr a = .error e) →
          ∃ e, parse_proto_msg msg = .error e) ∧
      ((∃ e, bytes_to_multiaddr m.observedAddr = .error e) →
          ∃ e, parse_proto_msg msg = .error e) ∧
      (∀ info, parse_proto_msg msg = .ok info →
        parseAddrs m.listenAddrs = .ok info.listen_addrs ∧
        bytes_to_multiaddr m.observedAddr = .ok info.observed_addr ∧
        info.listen_addrs.length = m.listenAddrs.length ∧
        ∀ i (h1 : i < m.listenAddrs.length) (h2 : i < info.listen_addrs.length),
          bytes_to_multiaddr (m.listenAddrs.get ⟨i, h1⟩) =
            .ok (info.listen_addrs.get ⟨i, h2⟩))) := by
  constructor
  · intro h
    unfold parse_proto_msg
    rw [h]
    exact ⟨⟨.invalidData, .protobufError⟩, rfl⟩
  · intro m hm
    refine ⟨?_, ?_, ?_⟩
    · rintro ⟨a, ha, e, he⟩
      obtain ⟨e2, he2⟩ := parseAddrs_error_of_mem m.listenAddrs a ha e he
      rw [parse_proto_msg_some msg m hm, he2]
      exact ⟨e2, rfl⟩
    · rintro ⟨e, he⟩
      rw [parse_proto_msg_some msg m hm]
      cases hpa : parseAddrs m.listenAddrs with
      | error e2 => exact ⟨e2, rfl⟩
      | ok addrs =>
        rw [he]
        exact ⟨e, rfl⟩
    · intro info hinfo
      rw [parse_proto_msg_some msg m hm] at hinfo
      cases hpa : parseAddrs m.listenAddrs with
      | error e2 =>
        rw [hpa] at hinfo
        have h2 : (Except.error e2 : Except IoError IdentifyInfo) = .ok info := hinfo
        exact Except.noConfusion h2
      | ok addrs =>
        rw [hpa] at hinfo
        cases hob : bytes_to_multiaddr m.observedAddr with
        | error e2 =>
          rw [hob] at hinfo
          have h2 : (Except.error e2 : Except IoError IdentifyInfo) = .ok info := hinfo
          exact Except.noConfusion h2
        | ok obs =>
          rw [hob] at hinfo
          have h2 : (Except.ok ⟨m.publicKey, m.protocolVersion, m.agentVersion, addrs, obs,
              m.protocols⟩ : Except IoError IdentifyInfo) = .ok info := hinfo
          cases h2
          obtain ⟨hlen, hidx⟩ := parseAddrs_ok_spec m.listenAddrs addrs hpa
          exact ⟨rfl, rfl, hlen, hidx⟩

/-- Witness for C6 at the concrete message `[34, 1, 255]`: its protobuf layer
decodes (to a message with a non-UTF-8 `observedAddr`), the observed address
fails to convert, and accordingly `parse_proto_msg` errors. -/
theorem claim_all_or_nothing_witness :
    decodeIdentify [34, 1, 255] = some ⟨[], [], [], [255], [], []⟩ ∧
    (∃ e, bytes_to_multiaddr ([255] : List Nat) = .error e) ∧
    ∃ e, parse_proto_msg [34, 1, 255] = .error e :=
  ⟨by decide, ⟨⟨.invalidData, .utf8Error⟩, by decide⟩,
   ((claim_all_or_nothing [34, 1, 255]).2 ⟨[], [], [], [255], [], []⟩ (by decide)).2.1
     ⟨⟨.invalidData, .utf8Error⟩, by decide⟩⟩

/-- C7: serializing the announcement on the listener path never fails for any
announcement value and remote address: encoding is a total function and the
listener upgrade always returns `ok` (the `expect` on `write_to_bytes` is
unreachable in this model of §4.3, which has no failing encode path). -/
theorem claim_listener_encode_never_fails (p : IdentifyProtocol) (remote : Multiaddr)
    (stream : List Nat) :
    ∃ out, upgrade p stream .listener remote = .ok out :=
  ⟨([listenerBytes p remote], none), rfl⟩

/-- C8: `protocol_names` always yields exactly one protocol identifier, the
fixed ASCII token `/ipfs/id/1.0.0`, independent of the `IdentifyProtocol` value
it is called on. -/
theorem claim_protocol_names_single_token (p : IdentifyProtocol) :
    protocol_names p = ["/ipfs/id/1.0.0"] ∧ (protocol_names p).length = 1 :=
  ⟨rfl, rfl⟩

/-- C9: on the dialer path the result depends only on the first frame of the
stream: any two streams with the same first frame (same length prefix and
payload) but arbitrary differing bytes afterwards produce the same upgrade
result; bytes after the first frame are never consumed into the result. -/
theorem claim_dialer_first_frame_only (p : IdentifyProtocol) (remote : Multiaddr)
    (payload rest1 rest2 : List Nat) :
    upgrade p (varintEncode payload.length ++ payload ++ rest1) .dialer remote =
      upgrade p (varintEncode payload.length ++ payload ++ rest2) .dialer remote := by
  unfold upgrade
  rw [readFrame_frame payload rest1, readFrame_frame payload rest2]

/-- C10: `parse_proto_msg` and `bytes_to_multiaddr` are total on arbitrary
input bytes: for every input they return either `ok` or `error` (the embedding
is a total function with no panicking operation). -/
theorem claim_parse_total (msg : List Nat) :
    ((∃ info, parse_proto_msg msg = .ok info) ∨ (∃ e, parse_proto_msg msg = .error e)) ∧
    ((∃ ma, bytes_to_multiaddr msg = .ok ma) ∨ (∃ e, bytes_to_multiaddr msg = .error e)) := by
  constructor
  · cases h : parse_proto_msg msg with
    | ok info => exact Or.inl ⟨info, rfl⟩
    | error e => exact Or.inr ⟨e, rfl⟩
  · cases h : bytes_to_multiaddr msg with
    | ok ma => exact Or.inl ⟨ma, rfl⟩
    | error e => exact Or.inr ⟨e, rfl⟩
